import Mathlib

/-!
Verification of the textbook fee reporter (textbook_fee_reporter.py and
TextbookPurchaseFeeCalculator.py) against its natural-language specification.

Strings are modelled as `List Char`; Python floats are modelled as exact
rationals (`ℚ`); Python dicts are modelled as association lists where an
insert appends and a lookup returns the most recent binding
(last-write-wins, as for a Python dict).
-/

/-- Python `str.isspace`-style whitespace used by `str.strip()`: ASCII
whitespace plus the full-width space U+3000, the characters relevant to
this program's inputs. -/
def isPySpace (c : Char) : Bool := c.isWhitespace || c = '　'

/-- Python `s.strip()`: drop leading and trailing whitespace. -/
def pyStrip (s : List Char) : List Char :=
  ((s.dropWhile isPySpace).reverse.dropWhile isPySpace).reverse

/-- Python `s.replace(c, '')` for a single character `c`: remove every
occurrence. -/
def removeChar (c : Char) (s : List Char) : List Char :=
  s.filter (fun d => d != c)

/-- Tier-1 normalization, `str_format_1` (textbook_fee_reporter.py lines
150-157, TextbookPurchaseFeeCalculator.py lines 128-129): remove spaces
(ASCII and full-width) and parenthesis characters (ASCII and full-width),
keeping the enclosed content.  The `str()` coercion is the identity on the
string model. -/
def str_format_1 (s : List Char) : List Char :=
  removeChar '）' (removeChar '（' (removeChar ')' (removeChar '('
    (removeChar '　' (removeChar ' ' s)))))

/-- Python `s.find(c)` for a character `c`: index of the first occurrence
(used only under a membership guard, as in the source). -/
def strFindIdx (c : Char) (s : List Char) : Nat :=
  s.findIdx (fun d => d == c)

/-- The bracket-stripping `while` loops of textbook_fee_reporter.py's
`str_format_2` (lines 168-184): while both the opening and the closing
bracket occur, cut the span from the first opening bracket to the first
closing bracket if the opening one comes first, else break (`if start <
end: ... else: break`).  This `start < end` guard exists only in the
reporter; TextbookPurchaseFeeCalculator.py's unguarded loops are modelled
separately by `removeBracketSpansU`.  The loop is modelled with a fuel
parameter: each iteration removes at least two characters, so fuel equal
to the string's length never runs out. -/
def removeBracketSpans (openC closeC : Char) : Nat → List Char → List Char
  | 0, s => s
  | fuel + 1, s =>
    if openC ∈ s ∧ closeC ∈ s then
      let st := strFindIdx openC s
      let en := strFindIdx closeC s
      if st < en then
        removeBracketSpans openC closeC fuel (s.take st ++ s.drop (en + 1))
      else s
    else s

/-- The bracket-stripping `while` loops of TextbookPurchaseFeeCalculator.py's
`str_format_2` (lines 134-137): while both delimiters occur, rewrite
`s = s[:s.find(open)] + s[s.find(close)+1:]` with no ordering guard.  When
the first closing bracket precedes the first opening one the rewrite does
not shrink the string and the Python loop never terminates, so this loop
is modelled as a partial function: `none` means the loop is still running
after `fuel` iterations (and divergence is the statement that every fuel
yields `none`). -/
def removeBracketSpansU (openC closeC : Char) : Nat → List Char → Option (List Char)
  | 0, _ => none
  | fuel + 1, s =>
    if openC ∈ s ∧ closeC ∈ s then
      removeBracketSpansU openC closeC fuel
        (s.take (strFindIdx openC s) ++ s.drop (strFindIdx closeC s + 1))
    else some s

/-- The character class kept by `re.sub(r'[^\w一-龥]', '', s)`:
word characters and CJK ideographs.  Python's unicode `\w` is modelled on
the alphabet this program uses (ASCII letters, digits, underscore; the CJK
range of the regex). -/
def isKeptChar (c : Char) : Bool :=
  (('a' ≤ c && c ≤ 'z') || ('A' ≤ c && c ≤ 'Z') || ('0' ≤ c && c ≤ '9') || c = '_')
    || (0x4e00 ≤ c.val && c.val ≤ 0x9fa5)

/-- Tier-2 normalization as implemented by textbook_fee_reporter.py's
`str_format_2` (lines 159-190): strip full-width bracket spans, then
ASCII bracket spans (halting on unbalanced brackets via the `start < end`
guard), then delete every character that is not a word character or CJK
ideograph, then remove remaining spaces.
TextbookPurchaseFeeCalculator.py's `str_format_2` (lines 132-138) differs:
its loops have no guard and diverge on inputs such as ")("; that version
is modelled by the partial `str_format_2U`. -/
def str_format_2 (s : List Char) : List Char :=
  let s1 := removeBracketSpans '（' '）' s.length s
  let s2 := removeBracketSpans '(' ')' s1.length s1
  let s3 := s2.filter isKeptChar
  removeChar '　' (removeChar ' ' s3)

/-- Tier-2 normalization as implemented by
TextbookPurchaseFeeCalculator.py's `str_format_2` (lines 132-138), a
partial function: both unguarded bracket loops, then the same character
filtering; `none` means some loop is still running after `fuel`
iterations. -/
def str_format_2U (fuel : Nat) (s : List Char) : Option (List Char) :=
  match removeBracketSpansU '（' '）' fuel s with
  | none => none
  | some s1 =>
    match removeBracketSpansU '(' ')' fuel s1 with
    | none => none
    | some s2 => some (removeChar '　' (removeChar ' ' (s2.filter isKeptChar)))

/-- Python `pat in s` substring test: does `pat` occur contiguously in
`s`?  Helper: does `s` start with `pat`? -/
def strStartsWith : List Char → List Char → Bool
  | _, [] => true
  | [], _ :: _ => false
  | c :: s, p :: ps => c == p && strStartsWith s ps

/-- Python `pat in s` substring containment. -/
def strContains (s pat : List Char) : Bool :=
  match s with
  | [] => pat.isEmpty
  | _ :: rest => strStartsWith s pat || strContains rest pat

/-! ## Price maps and the two resolvers -/

/-- A Python dict from title strings to prices, as an association list;
`mapInsert` appends and `mapGet` returns the most recent binding, giving
last-write-wins overwrite semantics. -/
abbrev PMap := List (List Char × ℚ)

/-- Dict insert (last-write-wins). -/
def mapInsert (m : PMap) (k : List Char) (v : ℚ) : PMap := m ++ [(k, v)]

/-- Python `d.get(k)`: the most recently inserted value for `k`, if any. -/
def mapGet : PMap → List Char → Option ℚ
  | [], _ => none
  | (k, v) :: rest, key =>
    match mapGet rest key with
    | some r => some r
    | none => if k = key then some v else none

/-- Python `k in d`. -/
def mapMem (m : PMap) (k : List Char) : Bool := (mapGet m k).isSome

/-- The three price maps built by both versions of
`calculate_student_payments`: raw trimmed title, Tier-1 key, Tier-2 key. -/
structure PriceMaps where
  raw : PMap
  fmt1 : PMap
  fmt2 : PMap

/-- One iteration of the map-building loop: insert the book's discounted
price under the stripped raw title and both normalized keys. -/
def bpStep (pm : PriceMaps) (b : List Char × ℚ) : PriceMaps :=
  let rawName := pyStrip b.1
  { raw := mapInsert pm.raw rawName b.2
    fmt1 := mapInsert pm.fmt1 (str_format_1 rawName) b.2
    fmt2 := mapInsert pm.fmt2 (str_format_2 rawName) b.2 }

/-- Building the price maps (textbook_fee_reporter.py lines 202-216,
TextbookPurchaseFeeCalculator.py lines 142-148). -/
def buildPriceMaps (books : List (List Char × ℚ)) : PriceMaps :=
  books.foldl bpStep ⟨[], [], []⟩

/-- A student purchase record as produced by `process_student_excel`:
student name and book title (both already stripped by the extractor). -/
structure Purchase where
  studentName : List Char
  bookTitle : List Char
deriving DecidableEq

/-- Python floor division toward negative infinity, `num // den` on the
components of a rational: the mathematical floor of `q`. -/
def ratFloor (q : ℚ) : Int := Int.fdiv q.num q.den

/-- Python's `round(x, 2)` on the rational model: scale by 100, round
half to even (Python 3 `round` semantics), and scale back.  With
`x = q * 100`, `f = ⌊x⌋` and `t = 2 * x.num - 2 * f * x.den`, the
fractional part `x - f` is below, above or equal to 1/2 according as `t`
is below, above or equal to `x.den`; the comparisons are kept on integers
so that the function evaluates by kernel reduction. -/
def round2 (q : ℚ) : ℚ :=
  let x := q * 100
  let f := ratFloor x
  let t : Int := 2 * x.num - 2 * f * x.den
  let n : Int := if t < (x.den : Int) then f else if (x.den : Int) < t then f + 1
    else if f % 2 = 0 then f else f + 1
  (n : ℚ) / 100

/-- The membership-checked resolution chain of textbook_fee_reporter.py
lines 226-233: raw trimmed title first, then the Tier-1 key, then the
Tier-2 key; the first map that contains its key supplies the price. -/
def matchedPrice (pm : PriceMaps) (bookName : List Char) : Option ℚ :=
  if mapMem pm.raw bookName then mapGet pm.raw bookName
  else if mapMem pm.fmt1 (str_format_1 bookName) then
    mapGet pm.fmt1 (str_format_1 bookName)
  else if mapMem pm.fmt2 (str_format_2 bookName) then
    mapGet pm.fmt2 (str_format_2 bookName)
  else none

/-- Accumulation as for `defaultdict(float)`: add `p` to the entry for `n`,
creating it at the end (insertion order of first appearance) if absent. -/
def addTotal (totals : List (List Char × ℚ)) (n : List Char) (p : ℚ) :
    List (List Char × ℚ) :=
  match totals with
  | [] => [(n, p)]
  | (m, t) :: rest => if m = n then (m, t + p) :: rest else (m, t) :: addTotal rest n p

/-- Loop state of the reporter's `calculate_student_payments`:
`student_totals` and `unmatched_records` (the latter as (name, title)
pairs; the source formats each pair into a message string). -/
structure CalcState where
  totals : List (List Char × ℚ)
  unmatched : List (List Char × List Char)

/-- One iteration of the reporter's loop (textbook_fee_reporter.py lines
221-238): strip the title, resolve by membership, accumulate or record
the unmatched pair. -/
def calcStepV1 (pm : PriceMaps) (st : CalcState) (stu : Purchase) : CalcState :=
  let bname := pyStrip stu.bookTitle
  match matchedPrice pm bname with
  | some p => { st with totals := addTotal st.totals stu.studentName p }
  | none => { st with unmatched := st.unmatched ++ [(stu.studentName, bname)] }

/-- Function `calculate_student_payments` of textbook_fee_reporter.py (lines
192-246): build the maps, scan the whole batch, raise an aggregated error
carrying every unmatched (student, title) pair if any exists, otherwise
return the per-student totals rounded to 2 digits. -/
def calculate_student_payments_v1 (books : List (List Char × ℚ))
    (students : List Purchase) :
    Except (List (List Char × List Char)) (List (List Char × ℚ)) :=
  let pm := buildPriceMaps books
  let st := students.foldl (calcStepV1 pm) ⟨[], []⟩
  if st.unmatched.isEmpty then
    .ok (st.totals.map (fun e => (e.1, round2 e.2)))
  else .error st.unmatched

/-- Python truthiness of an optional float: `None` and `0.0` are falsy. -/
def pyTruthy (o : Option ℚ) : Bool :=
  match o with
  | none => false
  | some q => q != 0

/-- Python `a or b` on optional floats: `a` if truthy, else `b`. -/
def pyOr (a b : Option ℚ) : Option ℚ := if pyTruthy a then a else b

/-- Loop state of the Calculator's `calculate_student_payments`: totals,
unmatched pairs, and the batch-level `flag_greedy`. -/
structure CalcStateF where
  totals : List (List Char × ℚ)
  unmatched : List (List Char × List Char)
  flagGreedy : Bool

/-- One iteration of TextbookPurchaseFeeCalculator.py lines 151-162:
`price = raw.get(bname) or fmt1.get(fmt1) or fmt2.get(fmt2)`; on a match,
set `flag_greedy` when the Tier-2 get is truthy while the raw and Tier-1
gets are falsy, and accumulate; otherwise record the unmatched pair. -/
def calcStepV2 (pm : PriceMaps) (st : CalcStateF) (stu : Purchase) : CalcStateF :=
  let bname := pyStrip stu.bookTitle
  let f1 := str_format_1 bname
  let f2 := str_format_2 bname
  let price := pyOr (pyOr (mapGet pm.raw bname) (mapGet pm.fmt1 f1)) (mapGet pm.fmt2 f2)
  match price with
  | some p =>
    let fl := if pyTruthy (mapGet pm.fmt2 f2) && !pyTruthy (mapGet pm.raw bname)
        && !pyTruthy (mapGet pm.fmt1 f1) then true else st.flagGreedy
    { st with totals := addTotal st.totals stu.studentName p, flagGreedy := fl }
  | none => { st with unmatched := st.unmatched ++ [(stu.studentName, bname)] }

/-- Function `calculate_student_payments` of TextbookPurchaseFeeCalculator.py
(lines 141-165): same maps and aggregation, but the resolution chain uses
Python `or` (truthiness) instead of membership, and the result carries the
batch-level `flag_greedy`.  This version substitutes the guarded (total)
Tier-2 normalizer for the Calculator's divergent one, so it is faithful
only on inputs where every title's Tier-2 normalization terminates; the
fully faithful partial model is `calculate_student_payments_v2p`. -/
def calculate_student_payments_v2 (books : List (List Char × ℚ))
    (students : List Purchase) :
    Except (List (List Char × List Char)) (List (List Char × ℚ) × Bool) :=
  let pm := buildPriceMaps books
  let st := students.foldl (calcStepV2 pm) ⟨[], [], false⟩
  if st.unmatched.isEmpty then
    .ok (st.totals.map (fun e => (e.1, round2 e.2)), st.flagGreedy)
  else .error st.unmatched

/-- One iteration of the Calculator's student loop with the Tier-2 key
passed in as a parameter (so that the caller can supply it from either
Tier-2 model); coincides with `calcStepV2` when the key is the guarded
normalizer's output. -/
def calcStepV2f (pm : PriceMaps) (st : CalcStateF) (stu : Purchase)
    (f2 : List Char) : CalcStateF :=
  let bname := pyStrip stu.bookTitle
  let f1 := str_format_1 bname
  let price := pyOr (pyOr (mapGet pm.raw bname) (mapGet pm.fmt1 f1)) (mapGet pm.fmt2 f2)
  match price with
  | some p =>
    let fl := if pyTruthy (mapGet pm.fmt2 f2) && !pyTruthy (mapGet pm.raw bname)
        && !pyTruthy (mapGet pm.fmt1 f1) then true else st.flagGreedy
    { st with totals := addTotal st.totals stu.studentName p, flagGreedy := fl }
  | none => { st with unmatched := st.unmatched ++ [(stu.studentName, bname)] }

/-- The Calculator's map-building loop with its own (partial) Tier-2
normalizer (TextbookPurchaseFeeCalculator.py lines 143-148): `none` when
`str_format_2` is still running on some book title. -/
def buildPriceMapsU (fuel : Nat) : List (List Char × ℚ) → PriceMaps → Option PriceMaps
  | [], pm => some pm
  | b :: rest, pm =>
    match str_format_2U fuel (pyStrip b.1) with
    | none => none
    | some f2 =>
      buildPriceMapsU fuel rest
        ⟨mapInsert pm.raw (pyStrip b.1) b.2,
         mapInsert pm.fmt1 (str_format_1 (pyStrip b.1)) b.2,
         mapInsert pm.fmt2 f2 b.2⟩

/-- The Calculator's student loop with its own (partial) Tier-2
normalizer (TextbookPurchaseFeeCalculator.py lines 151-162): `none` when
`str_format_2` is still running on some purchase title. -/
def calcLoopU (fuel : Nat) (pm : PriceMaps) : List Purchase → CalcStateF → Option CalcStateF
  | [], st => some st
  | stu :: rest, st =>
    match str_format_2U fuel (pyStrip stu.bookTitle) with
    | none => none
    | some f2 => calcLoopU fuel pm rest (calcStepV2f pm st stu f2)

/-- Fully faithful model of TextbookPurchaseFeeCalculator.py's
`calculate_student_payments` (lines 141-165), with the Calculator's own
divergent Tier-2 normalizer: `none` means the run has not finished after
`fuel` loop iterations, and an input on which every fuel yields `none` is
one on which the Python function never returns. -/
def calculate_student_payments_v2p (fuel : Nat) (books : List (List Char × ℚ))
    (students : List Purchase) :
    Option (Except (List (List Char × List Char)) (List (List Char × ℚ) × Bool)) :=
  match buildPriceMapsU fuel books ⟨[], [], []⟩ with
  | none => none
  | some pm =>
    match calcLoopU fuel pm students ⟨[], [], false⟩ with
    | none => none
    | some st =>
      some (if st.unmatched.isEmpty then
          .ok (st.totals.map (fun e => (e.1, round2 e.2)), st.flagGreedy)
        else .error st.unmatched)

/-- The grand total displayed after a successful calculation
(textbook_fee_reporter.py lines 274-278, TextbookPurchaseFeeCalculator.py
line 306): the sum of the per-student rounded fees. -/
def grandTotal (pays : List (List Char × ℚ)) : ℚ := (pays.map (fun e => e.2)).sum

/-- Lookup in the accumulated totals (`student_totals[name]`, with 0 for
an absent student, as for `defaultdict(float)`). -/
def totalsGet : List (List Char × ℚ) → List Char → ℚ
  | [], _ => 0
  | (m, t) :: rest, n => if m = n then t else totalsGet rest n

/-! ## The tabular extractor (`process_book_excel`) -/

/-- A spreadsheet cell as seen through pandas: empty (NaN), numeric, or a
string.  Numeric cells are modelled as rationals. -/
inductive Cell where
  | blank
  | num (q : ℚ)
  | strv (s : List Char)
deriving DecidableEq

/-- A grid of untyped cells, the result of `pd.read_excel(..., header=None)`.
Grids model data frames, which are rectangular with at least one column. -/
abbrev Grid := List (List Cell)

/-- Test `astype(str).str.contains(tok)` on one cell.  The tokens searched for
(class names and the Chinese column headers) never occur in the decimal
rendering of a numeric cell or in the "nan" rendering of a blank cell, so
those cases are modelled as false. -/
def cellContainsTok (c : Cell) (tok : List Char) : Bool :=
  match c with
  | .strv s => strContains s tok
  | _ => false

/-- Equality of a cell against a string literal (`df.iloc[r, 0] != "序号"`):
only a string cell with exactly that content compares equal. -/
def cellIsStrEq (c : Cell) (t : List Char) : Bool :=
  match c with
  | .strv s => s = t
  | _ => false

/-- Test `pd.isna` on a cell. -/
def cellIsNa (c : Cell) : Bool :=
  match c with
  | .blank => true
  | _ => false

/-- Python `int(cell)`: truncation toward zero of a numeric cell.  Serial
cells in the modelled grids are numeric; `int()` of a non-numeric cell is
modelled as a conversion failure. -/
def cellToInt (c : Cell) : Option Int :=
  match c with
  | .num q => some (if 0 ≤ q.num then ratFloor q else -ratFloor (-q))
  | _ => none

/-- Conversion `float(cell) if pd.notna(cell) else 0.0`: a missing price cell
defaults to 0.0; `float()` of a non-numeric string cell is modelled as a
conversion failure. -/
def cellToPrice (c : Cell) : Option ℚ :=
  match c with
  | .blank => some 0
  | .num q => some q
  | .strv _ => none

/-- The error outcomes of `process_book_excel` (each a distinct
`ValueError` message in the source; `outOfRange` is the uncaught
IndexError of a positional access past the end of the frame, and
`convError` a failed `int()`/`float()` conversion). -/
inductive BookError where
  | classNotFound
  | outOfRange
  | headerNotFound
  | missingColumn (tok : List Char)
  | nonContiguousSerial (expected found : Int)
  | convError
  | noValidData
deriving DecidableEq

/-- One extracted book record (`book_info`, textbook_fee_reporter.py lines
80-85): serial, the raw title cell, and the price with blank defaulting
to 0.0. -/
structure BookRec where
  serial : Int
  title : Cell
  price : ℚ
deriving DecidableEq

/-- Access `df.iloc[r, c]` as a partial positional lookup. -/
def gridCell (g : Grid) (r c : Nat) : Option Cell :=
  (g.get? r).bind (fun row => row.get? c)

/-- The record-reading `while` loop of `process_book_excel`
(textbook_fee_reporter.py lines 69-89): starting at `currentRow` with the
running `expected` serial, read records while the row exists and its
serial cell is non-empty; a serial different from the expected value is a
hard error naming both.  The loop runs at most once per remaining row, so
fuel equal to the number of grid rows never runs out. -/
def readBookRows (g : Grid) (si ti pi : Nat) :
    Nat → Nat → Int → Except BookError (List BookRec)
  | 0, _, _ => .ok []
  | fuel + 1, currentRow, expected =>
    if currentRow < g.length then
      match gridCell g currentRow si with
      | none => .error .outOfRange
      | some sc =>
        if cellIsNa sc then .ok []
        else
          match cellToInt sc with
          | none => .error .convError
          | some serialNumber =>
            if serialNumber ≠ expected then
              .error (.nonContiguousSerial expected serialNumber)
            else
              match gridCell g currentRow ti, gridCell g currentRow pi with
              | some tc, some pc =>
                match cellToPrice pc with
                | none => .error .convError
                | some pr =>
                  match readBookRows g si ti pi fuel (currentRow + 1) (expected + 1) with
                  | .ok rest => .ok (⟨serialNumber, tc, pr⟩ :: rest)
                  | .error e => .error e
              | _, _ => .error .outOfRange
    else .ok []

/-- The header token "序号" (serial number). -/
def serialTok : List Char := "序号".toList

/-- The header token "教材名称" (textbook title). -/
def titleTok : List Char := "教材名称".toList

/-- The header token "折扣价" (discounted price). -/
def priceTok : List Char := "折扣价".toList

/-- Column detection: the first column of the header row whose stringified
content contains the token (`mask.idxmax()` under `mask.any()`). -/
def findColIdx (row : List Cell) (tok : List Char) : Option Nat :=
  row.findIdx? (fun c => cellContainsTok c tok)

/-- Function `process_book_excel` (textbook_fee_reporter.py lines 34-97): find the
anchor row whose column-0 cell contains the target class, require the
literal "序号" in column 0 of the following row — a row that must exist,
the access `df.iloc[class_row + 1, 0]` having no bounds guard — locate
the three required columns, read the records, and reject an empty
result. -/
def process_book_excel (g : Grid) (targetClass : List Char) :
    Except BookError (List BookRec) :=
  match g.findIdx? (fun row => cellContainsTok (row.headD .blank) targetClass) with
  | none => .error .classNotFound
  | some classRow =>
    match g.get? (classRow + 1) with
    | none => .error .outOfRange
    | some hdrRow =>
      if ¬ cellIsStrEq (hdrRow.headD .blank) serialTok then .error .headerNotFound
      else
        match findColIdx hdrRow serialTok, findColIdx hdrRow titleTok,
            findColIdx hdrRow priceTok with
        | none, _, _ => .error (.missingColumn serialTok)
        | some _, none, _ => .error (.missingColumn titleTok)
        | some _, some _, none => .error (.missingColumn priceTok)
        | some si, some ti, some pi =>
          match readBookRows g si ti pi g.length (classRow + 2) 1 with
          | .error e => .error e
          | .ok bookData =>
            if bookData.isEmpty then .error .noValidData else .ok bookData

/-! ## Lemmas about the normalizers -/

lemma mem_removeChar {c a : Char} {s : List Char} :
    c ∈ removeChar a s ↔ c ∈ s ∧ c ≠ a := by
  simp [removeChar, List.mem_filter]

lemma removeChar_eq_self {a : Char} {s : List Char} (h : ∀ c ∈ s, c ≠ a) :
    removeChar a s = s := by
  simp only [removeChar]
  exact List.filter_eq_self.mpr (fun c hc => by simpa using h c hc)

lemma mem_str_format_1 {c : Char} {s : List Char} (h : c ∈ str_format_1 s) :
    c ≠ ' ' ∧ c ≠ '　' ∧ c ≠ '(' ∧ c ≠ ')' ∧ c ≠ '（' ∧ c ≠ '）' := by
  simp only [str_format_1, mem_removeChar] at h
  tauto

lemma removeBracketSpans_of_not_mem {o cl : Char} (fuel : Nat) {s : List Char}
    (h : o ∉ s) : removeBracketSpans o cl fuel s = s := by
  cases fuel with
  | zero => rfl
  | succ n => simp [removeBracketSpans, h]

lemma removeBracketSpans_of_le {o cl : Char} (fuel : Nat) {s : List Char}
    (h : strFindIdx cl s ≤ strFindIdx o s) : removeBracketSpans o cl fuel s = s := by
  cases fuel with
  | zero => rfl
  | succ n =>
    simp only [removeBracketSpans]
    split
    · rw [if_neg (by omega)]
    · rfl

lemma strFindIdx_lt_length {c : Char} {s : List Char} (h : c ∈ s) :
    strFindIdx c s < s.length :=
  List.findIdx_lt_length_of_exists ⟨c, h, by simp⟩

lemma getElem_strFindIdx {c : Char} {s : List Char}
    (hlt : strFindIdx c s < s.length) : s[strFindIdx c s] = c := by
  have hf := List.findIdx_getElem (p := fun d => d == c) (w := hlt)
  simpa using hf

lemma strFindIdx_le_of_getElem {c : Char} {s : List Char} {i : Nat}
    (hi : i < s.length) (he : s[i] = c) : strFindIdx c s ≤ i := by
  by_contra hcon
  push_neg at hcon
  rw [strFindIdx] at hcon
  have hf := List.not_of_lt_findIdx hcon
  simp [he] at hf

/-- On a string that is a fixed point of the unguarded rewrite while both
delimiters are present, the Calculator's bracket loop never terminates:
every fuel yields `none`. -/
lemma removeBracketSpansU_fixpoint {o cl : Char} {s : List Char}
    (ho : o ∈ s) (hc : cl ∈ s)
    (hfix : s.take (strFindIdx o s) ++ s.drop (strFindIdx cl s + 1) = s) :
    ∀ fuel, removeBracketSpansU o cl fuel s = none := by
  intro fuel
  induction fuel with
  | zero => rfl
  | succ f ih =>
    rw [removeBracketSpansU, if_pos ⟨ho, hc⟩, hfix]
    exact ih

lemma getElem_idx_congr {α : Type} (l : List α) {i j : Nat} (h : i = j)
    (hi : i < l.length) (hj : j < l.length) : l[i] = l[j] := by
  cases h
  rfl

/-- Once the first closing delimiter precedes the first opening one, the
unguarded rewrite preserves that situation, so the Calculator's bracket
loop never terminates from such a state. -/
lemma removeBracketSpansU_divergent (o cl : Char) (hne : o ≠ cl) :
    ∀ (fuel : Nat) (s : List Char), o ∈ s → cl ∈ s →
    strFindIdx cl s ≤ strFindIdx o s →
    removeBracketSpansU o cl fuel s = none := by
  intro fuel
  induction fuel with
  | zero => intro s _ _ _; rfl
  | succ f ih =>
    intro s ho hc hle
    rw [removeBracketSpansU, if_pos ⟨ho, hc⟩]
    have hstlt : strFindIdx o s < s.length := strFindIdx_lt_length ho
    have henlt : strFindIdx cl s < s.length := strFindIdx_lt_length hc
    have hgo : s[strFindIdx o s] = o := getElem_strFindIdx hstlt
    have hgc : s[strFindIdx cl s] = cl := getElem_strFindIdx henlt
    have hlt : strFindIdx cl s < strFindIdx o s := by
      rcases Nat.lt_or_ge (strFindIdx cl s) (strFindIdx o s) with h | h
      · exact h
      · have heq : strFindIdx cl s = strFindIdx o s := by omega
        rw [← hgo, ← hgc] at hne
        exact absurd (by congr 1; exact heq.symm) hne
    have htklen : (s.take (strFindIdx o s)).length = strFindIdx o s := by
      simp [List.length_take]
      omega
    have hcl0 : cl ∈ s.take (strFindIdx o s) := by
      have hb : strFindIdx cl s < (s.take (strFindIdx o s)).length := by omega
      have he : (s.take (strFindIdx o s))[strFindIdx cl s] = cl := by
        rw [List.getElem_take s]
        exact hgc
      have hm := List.getElem_mem hb
      rwa [he] at hm
    have ho0 : o ∈ s.drop (strFindIdx cl s + 1) := by
      have hb : strFindIdx o s - (strFindIdx cl s + 1)
          < (s.drop (strFindIdx cl s + 1)).length := by
        rw [List.length_drop]
        omega
      have he : (s.drop (strFindIdx cl s + 1))[strFindIdx o s - (strFindIdx cl s + 1)]
          = o := by
        rw [List.getElem_drop s]
        exact (getElem_idx_congr s (by omega) (by omega) hstlt).trans hgo
      have hm := List.getElem_mem hb
      rwa [he] at hm
    have hcl' : cl ∈ s.take (strFindIdx o s) ++ s.drop (strFindIdx cl s + 1) :=
      List.mem_append_left _ hcl0
    have ho' : o ∈ s.take (strFindIdx o s) ++ s.drop (strFindIdx cl s + 1) :=
      List.mem_append_right _ ho0
    refine ih _ ho' hcl' ?_
    have hfc : strFindIdx cl (s.take (strFindIdx o s) ++ s.drop (strFindIdx cl s + 1))
        ≤ strFindIdx cl s := by
      refine strFindIdx_le_of_getElem
        (by rw [List.length_append]; omega) ?_
      rw [List.getElem_append_left (by omega)]
      rw [List.getElem_take s]
      exact hgc
    have hfo : strFindIdx o s
        ≤ strFindIdx o (s.take (strFindIdx o s) ++ s.drop (strFindIdx cl s + 1)) := by
      by_contra hcon
      push_neg at hcon
      have hj := getElem_strFindIdx (strFindIdx_lt_length ho')
      rw [List.getElem_append_left (by omega)] at hj
      rw [List.getElem_take s] at hj
      have hle2 := strFindIdx_le_of_getElem
        (show strFindIdx o (s.take (strFindIdx o s) ++ s.drop (strFindIdx cl s + 1))
            < s.length from by omega) hj
      omega
    omega

/-- When the unguarded loop does terminate, it computes the same string
as the reporter's guarded loop (run with any sufficient fuel). -/
lemma removeBracketSpansU_some (o cl : Char) (hne : o ≠ cl) :
    ∀ (fuel : Nat) (s r : List Char), removeBracketSpansU o cl fuel s = some r →
    ∀ fuel2, s.length ≤ fuel2 → removeBracketSpans o cl fuel2 s = r := by
  intro fuel
  induction fuel with
  | zero => intro s r h; exact absurd h (by simp [removeBracketSpansU])
  | succ f ih =>
    intro s r h fuel2 hf2
    rw [removeBracketSpansU] at h
    by_cases hcond : o ∈ s ∧ cl ∈ s
    · rw [if_pos hcond] at h
      by_cases hord : strFindIdx o s < strFindIdx cl s
      · have hcllt : strFindIdx cl s < s.length := strFindIdx_lt_length hcond.2
        have hlen' : (s.take (strFindIdx o s) ++ s.drop (strFindIdx cl s + 1)).length
            ≤ s.length - 2 := by
          simp [List.length_append, List.length_take, List.length_drop]
          omega
        obtain ⟨f2, rfl⟩ : ∃ f2, fuel2 = f2 + 1 := ⟨fuel2 - 1, by omega⟩
        rw [removeBracketSpans, if_pos hcond]
        show (if strFindIdx o s < strFindIdx cl s then
            removeBracketSpans o cl f2 (s.take (strFindIdx o s) ++ s.drop (strFindIdx cl s + 1))
          else s) = r
        rw [if_pos hord]
        exact ih _ _ h f2 (by omega)
      · have hdiv := removeBracketSpansU_divergent o cl hne (f + 1) s hcond.1 hcond.2
          (Nat.le_of_not_lt hord)
        rw [removeBracketSpansU, if_pos hcond] at hdiv
        rw [hdiv] at h
        exact absurd h (by simp)
    · rw [if_neg hcond] at h
      cases h
      cases fuel2 with
      | zero => rfl
      | succ f2 => rw [removeBracketSpans, if_neg hcond]

/-- When the Calculator's Tier-2 normalizer terminates, its result is the
reporter's (guarded) Tier-2 normalization. -/
lemma str_format_2U_some {fuel : Nat} {s r : List Char}
    (h : str_format_2U fuel s = some r) : r = str_format_2 s := by
  rw [str_format_2U] at h
  split at h
  · exact absurd h (by simp)
  · rename_i s1 h1
    split at h
    · exact absurd h (by simp)
    · rename_i s2 h2
      cases h
      have e1 : removeBracketSpans '（' '）' s.length s = s1 :=
        removeBracketSpansU_some _ _ (by decide) fuel s s1 h1 s.length le_rfl
      have e2 : removeBracketSpans '(' ')' s1.length s1 = s2 :=
        removeBracketSpansU_some _ _ (by decide) fuel s1 s2 h2 s1.length le_rfl
      simp only [str_format_2]
      rw [e1, e2]

lemma rbsu_ascii_div : ∀ fuel, removeBracketSpansU '(' ')' fuel [')', '('] = none :=
  removeBracketSpansU_fixpoint (by decide) (by decide) (by decide)

lemma rbsu_cjk_div : ∀ fuel, removeBracketSpansU '（' '）' fuel ['）', '（'] = none :=
  removeBracketSpansU_fixpoint (by decide) (by decide) (by decide)

lemma str_format_2U_ascii_div : ∀ fuel, str_format_2U fuel [')', '('] = none := by
  intro fuel
  cases fuel with
  | zero => rfl
  | succ f =>
    have hs1 : removeBracketSpansU '（' '）' (f + 1) [')', '('] = some [')', '('] := by
      rw [removeBracketSpansU, if_neg (by decide)]
    simp [str_format_2U, hs1, rbsu_ascii_div (f + 1)]

lemma str_format_2U_cjk_div : ∀ fuel, str_format_2U fuel ['）', '（'] = none := by
  intro fuel
  simp [str_format_2U, rbsu_cjk_div fuel]

lemma buildPriceMapsU_some : ∀ {fuel : Nat} {bs : List (List Char × ℚ)}
    {pm pm' : PriceMaps}, buildPriceMapsU fuel bs pm = some pm' →
    pm' = bs.foldl bpStep pm := by
  intro fuel bs
  induction bs with
  | nil =>
    intro pm pm' h
    rw [buildPriceMapsU] at h
    cases h
    rfl
  | cons b rest ih =>
    intro pm pm' h
    rw [buildPriceMapsU] at h
    split at h
    · exact absurd h (by simp)
    · rename_i f2 hf
      have hf2 : f2 = str_format_2 (pyStrip b.1) := str_format_2U_some hf
      subst hf2
      rw [List.foldl_cons]
      exact ih h

lemma calcLoopU_some : ∀ {fuel : Nat} {pm : PriceMaps} {sts : List Purchase}
    {st st' : CalcStateF}, calcLoopU fuel pm sts st = some st' →
    st' = sts.foldl (calcStepV2 pm) st := by
  intro fuel pm sts
  induction sts with
  | nil =>
    intro st st' h
    rw [calcLoopU] at h
    cases h
    rfl
  | cons stu rest ih =>
    intro st st' h
    rw [calcLoopU] at h
    split at h
    · exact absurd h (by simp)
    · rename_i f2 hf
      have hf2 : f2 = str_format_2 (pyStrip stu.bookTitle) := str_format_2U_some hf
      subst hf2
      rw [List.foldl_cons]
      exact ih h

/-- When the faithful partial Calculator run finishes, its outcome is the
one computed by the totalized model `calculate_student_payments_v2`. -/
lemma v2p_some {fuel : Nat} {books : List (List Char × ℚ)} {students : List Purchase}
    {res : Except (List (List Char × List Char)) (List (List Char × ℚ) × Bool)}
    (h : calculate_student_payments_v2p fuel books students = some res) :
    res = calculate_student_payments_v2 books students := by
  rw [calculate_student_payments_v2p] at h
  split at h
  · exact absurd h (by simp)
  · rename_i pm hb
    split at h
    · exact absurd h (by simp)
    · rename_i st hl
      cases h
      have hpm : pm = buildPriceMaps books := buildPriceMapsU_some hb
      subst hpm
      have hst := calcLoopU_some hl
      subst hst
      rfl

/-- Evaluation of the faithful Calculator model at the C2 failing batch:
the second purchase's title ")(" makes `str_format_2` loop forever, so no
amount of fuel produces any outcome — the aggregated error is never
raised. -/
lemma v2p_hangs_example : ∀ fuel,
    calculate_student_payments_v2p fuel [("b".toList, 1)]
      [⟨"s".toList, "zz".toList⟩, ⟨"t".toList, ")(".toList⟩] = none := by
  intro fuel
  cases fuel with
  | zero => rfl
  | succ f =>
    have e1 : str_format_2U (f + 1) (pyStrip "b".toList) = some ("b".toList) := by
      with_unfolding_all rfl
    have e2 : str_format_2U (f + 1) (pyStrip "zz".toList) = some ("zz".toList) := by
      with_unfolding_all rfl
    have e3 : str_format_2U (f + 1) (pyStrip ")(".toList) = none :=
      str_format_2U_ascii_div (f + 1)
    simp only [calculate_student_payments_v2p, buildPriceMapsU, calcLoopU, e1, e2, e3]

lemma mem_str_format_2 {c : Char} {s : List Char} (h : c ∈ str_format_2 s) :
    isKeptChar c = true := by
  simp only [str_format_2, mem_removeChar] at h
  exact (List.mem_filter.mp h.1.1).2

lemma ne_of_isKept_of_not {c d : Char} (h : isKeptChar c = true)
    (hd : isKeptChar d = false) : c ≠ d := by
  intro he; rw [he] at h; rw [h] at hd; exact Bool.noConfusion hd

/-- C6.  Idempotence holds for textbook_fee_reporter.py's normalizers:
applying `str_format_1` or its `str_format_2` twice gives the same result
as applying it once, for every string, including the empty string and
strings with unmatched brackets.  Evaluation at the failing input:
TextbookPurchaseFeeCalculator.py's `str_format_2` never returns on
"）（" (every fuel yields no result), so for that cited implementation
the idempotence equation has no value at all on such strings. -/
theorem claimC6 :
    (∀ s : List Char, str_format_1 (str_format_1 s) = str_format_1 s
      ∧ str_format_2 (str_format_2 s) = str_format_2 s)
    ∧ (∀ fuel, str_format_2U fuel ['）', '（'] = none) := by
  refine ⟨fun s => ?_, str_format_2U_cjk_div⟩
  constructor
  · set t := str_format_1 s with ht
    have hmem : ∀ c ∈ t, c ≠ ' ' ∧ c ≠ '　' ∧ c ≠ '(' ∧ c ≠ ')' ∧ c ≠ '（' ∧ c ≠ '）' :=
      fun c hc => mem_str_format_1 (ht ▸ hc)
    show str_format_1 t = t
    simp only [str_format_1]
    rw [removeChar_eq_self (fun c hc => (hmem c hc).1)]
    rw [removeChar_eq_self (fun c hc => (hmem c hc).2.1)]
    rw [removeChar_eq_self (fun c hc => (hmem c hc).2.2.1)]
    rw [removeChar_eq_self (fun c hc => (hmem c hc).2.2.2.1)]
    rw [removeChar_eq_self (fun c hc => (hmem c hc).2.2.2.2.1)]
    rw [removeChar_eq_self (fun c hc => (hmem c hc).2.2.2.2.2)]
  · set t := str_format_2 s with ht
    have hk : ∀ c ∈ t, isKeptChar c = true := fun c hc => mem_str_format_2 (ht ▸ hc)
    have hcjk : '（' ∉ t := fun hc => absurd (hk _ hc) (by decide)
    have hascii : '(' ∉ t := fun hc => absurd (hk _ hc) (by decide)
    show str_format_2 t = t
    simp only [str_format_2]
    rw [removeBracketSpans_of_not_mem _ hcjk, removeBracketSpans_of_not_mem _ hascii]
    rw [List.filter_eq_self.mpr hk]
    rw [removeChar_eq_self (fun c hc => ne_of_isKept_of_not (hk c hc) (by decide))]
    rw [removeChar_eq_self (fun c hc => ne_of_isKept_of_not (hk c hc) (by decide))]

lemma isKept_eq_false_of_pySpace {c : Char} (h : isPySpace c = true) :
    isKeptChar c = false := by
  simp only [isPySpace, Char.isWhitespace, Bool.or_eq_true, decide_eq_true_eq] at h
  have hc : c = ' ' ∨ c = '\t' ∨ c = '\r' ∨ c = '\n' ∨ c = '　' := by tauto
  rcases hc with h | h | h | h | h <;> subst h <;> decide

/-- C5.  Totality holds for textbook_fee_reporter.py's `str_format_2`
only: its bracket-stripping passes halt (returning the string unchanged)
whenever a bracket style is missing one of its delimiters or the closing
delimiter comes first, and any whitespace-only input (including the empty
string) normalizes to the empty string.  Evaluation at the failing input:
TextbookPurchaseFeeCalculator.py's `str_format_2` has no halt guard, and
on ")(" its ASCII bracket loop — and hence the whole function — never
terminates: every fuel yields no result. -/
theorem claimC5 :
    (∀ s : List Char, (∀ c ∈ s, isPySpace c = true) → str_format_2 s = [])
    ∧ (∀ (fuel : Nat) (s : List Char), '（' ∉ s →
        removeBracketSpans '（' '）' fuel s = s)
    ∧ (∀ (fuel : Nat) (s : List Char), '(' ∉ s →
        removeBracketSpans '(' ')' fuel s = s)
    ∧ (∀ (fuel : Nat) (s : List Char), strFindIdx '）' s ≤ strFindIdx '（' s →
        removeBracketSpans '（' '）' fuel s = s)
    ∧ (∀ (fuel : Nat) (s : List Char), strFindIdx ')' s ≤ strFindIdx '(' s →
        removeBracketSpans '(' ')' fuel s = s)
    ∧ (∀ fuel, removeBracketSpansU '(' ')' fuel [')', '('] = none)
    ∧ (∀ fuel, str_format_2U fuel [')', '('] = none) := by
  refine ⟨?_, fun fuel s h => removeBracketSpans_of_not_mem fuel h,
    fun fuel s h => removeBracketSpans_of_not_mem fuel h,
    fun fuel s h => removeBracketSpans_of_le fuel h,
    fun fuel s h => removeBracketSpans_of_le fuel h,
    rbsu_ascii_div, str_format_2U_ascii_div⟩
  intro s hs
  have hcjk : '（' ∉ s := fun hc => absurd (hs _ hc) (by decide)
  have hascii : '(' ∉ s := fun hc => absurd (hs _ hc) (by decide)
  simp only [str_format_2]
  rw [removeBracketSpans_of_not_mem _ hcjk, removeBracketSpans_of_not_mem _ hascii]
  rw [List.filter_eq_nil_iff.mpr
    (fun c hc => by simp [isKept_eq_false_of_pySpace (hs c hc)])]
  rfl

/-- Witness for C5 at concrete inputs: a whitespace-only string
normalizes to the empty string, and unbalanced brackets halt the
corresponding stripping pass. -/
theorem claimC5_witness :
    str_format_2 [' ', '　'] = []
      ∧ removeBracketSpans '（' '）' 4 ['）', 'a', '（'] = ['）', 'a', '（']
      ∧ removeBracketSpans '(' ')' 3 ['x', ')'] = ['x', ')'] :=
  ⟨claimC5.1 [' ', '　'] (by decide),
   claimC5.2.2.2.1 4 ['）', 'a', '（'] (by decide),
   claimC5.2.2.1 3 ['x', ')'] (by decide)⟩

/-! ## Lemmas about the price maps and the aggregation loops -/

lemma mapGet_mem : ∀ {m : PMap} {k : List Char} {v : ℚ},
    mapGet m k = some v → (k, v) ∈ m := by
  intro m
  induction m with
  | nil => intro k v h; simp [mapGet] at h
  | cons e rest ih =>
    intro k v h
    rw [mapGet] at h
    split at h
    · rename_i r heq
      cases h
      exact List.mem_cons_of_mem _ (ih heq)
    · split at h
      · rename_i hk
        cases h
        subst hk
        exact List.mem_cons_self _ _
      · simp at h

lemma totalsGet_addTotal_self (t : List (List Char × ℚ)) (n : List Char) (p : ℚ) :
    totalsGet (addTotal t n p) n = totalsGet t n + p := by
  induction t with
  | nil => simp [addTotal, totalsGet]
  | cons e rest ih =>
    obtain ⟨m, v⟩ := e
    by_cases hm : m = n <;> simp [addTotal, totalsGet, hm, ih]

lemma totalsGet_addTotal_ne (t : List (List Char × ℚ)) {n m : List Char}
    (h : m ≠ n) (p : ℚ) : totalsGet (addTotal t n p) m = totalsGet t m := by
  induction t with
  | nil =>
    simp only [addTotal, totalsGet]
    rw [if_neg (fun he => h he.symm)]
  | cons e rest ih =>
    obtain ⟨k, v⟩ := e
    rw [addTotal]
    by_cases hk : k = n
    · rw [if_pos hk]
      simp only [totalsGet]
      rw [if_neg (fun (he : k = m) => h (he ▸ hk)),
        if_neg (fun (he : k = m) => h (he ▸ hk))]
    · rw [if_neg hk]
      simp only [totalsGet]
      by_cases hk2 : k = m
      · rw [if_pos hk2, if_pos hk2]
      · rw [if_neg hk2, if_neg hk2, ih]

lemma mem_keys_addTotal {t : List (List Char × ℚ)} {n p m} :
    m ∈ (addTotal t n p).map Prod.fst ↔ m ∈ t.map Prod.fst ∨ m = n := by
  induction t with
  | nil => simp [addTotal]
  | cons e rest ih =>
    obtain ⟨k, v⟩ := e
    by_cases hk : k = n <;> simp [addTotal, hk, ih] <;> tauto

lemma nodup_keys_addTotal {t : List (List Char × ℚ)} {n p}
    (h : (t.map Prod.fst).Nodup) : ((addTotal t n p).map Prod.fst).Nodup := by
  induction t with
  | nil => simp [addTotal]
  | cons e rest ih =>
    obtain ⟨k, v⟩ := e
    rw [List.map_cons, List.nodup_cons] at h
    by_cases hk : k = n
    · simpa [addTotal, hk, List.nodup_cons] using h
    · rw [addTotal]
      rw [if_neg hk]
      rw [List.map_cons, List.nodup_cons]
      exact ⟨fun hc => (mem_keys_addTotal.mp hc).elim h.1 hk, ih h.2⟩

lemma totalsGet_eq_of_mem : ∀ {t : List (List Char × ℚ)},
    (t.map Prod.fst).Nodup → ∀ {n v}, (n, v) ∈ t → totalsGet t n = v := by
  intro t
  induction t with
  | nil => intro _ n v h; cases h
  | cons e rest ih =>
    intro hnd n v h
    obtain ⟨k, w⟩ := e
    rw [List.map_cons, List.nodup_cons] at hnd
    rcases List.mem_cons.mp h with he | hm
    · cases he
      simp [totalsGet]
    · have hk : k ≠ n := by
        intro he
        subst he
        exact hnd.1 (List.mem_map.mpr ⟨(k, v), hm, rfl⟩)
      simpa [totalsGet, hk] using ih hnd.2 hm

lemma foldV1_unmatched (pm : PriceMaps) : ∀ (students : List Purchase) (st : CalcState),
    (students.foldl (calcStepV1 pm) st).unmatched
      = st.unmatched ++ students.filterMap (fun stu =>
          match matchedPrice pm (pyStrip stu.bookTitle) with
          | none => some (stu.studentName, pyStrip stu.bookTitle)
          | some _ => none) := by
  intro students
  induction students with
  | nil => intro st; simp
  | cons stu rest ih =>
    intro st
    rw [List.foldl_cons, ih]
    cases h : matchedPrice pm (pyStrip stu.bookTitle) <;>
      simp [calcStepV1, h, List.filterMap_cons]

lemma foldV1_totalsGet (pm : PriceMaps) (n : List Char) :
    ∀ (students : List Purchase) (st : CalcState),
    totalsGet (students.foldl (calcStepV1 pm) st).totals n
      = totalsGet st.totals n
        + ((students.filter (fun stu => stu.studentName = n)).filterMap
            (fun stu => matchedPrice pm (pyStrip stu.bookTitle))).sum := by
  intro students
  induction students with
  | nil => intro st; simp
  | cons stu rest ih =>
    intro st
    rw [List.foldl_cons, ih]
    by_cases hn : stu.studentName = n
    · rw [List.filter_cons_of_pos (by simp [hn])]
      cases h : matchedPrice pm (pyStrip stu.bookTitle) with
      | none =>
        simp only [List.filterMap_cons, h]
        simp [calcStepV1, h]
      | some p =>
        simp only [List.filterMap_cons, h, List.sum_cons]
        simp only [calcStepV1, h]
        rw [show addTotal st.totals stu.studentName p = addTotal st.totals n p from
          by rw [hn]]
        rw [totalsGet_addTotal_self]
        ring
    · rw [List.filter_cons_of_neg (by simp [hn])]
      cases h : matchedPrice pm (pyStrip stu.bookTitle) with
      | none => simp [calcStepV1, h]
      | some p =>
        simp only [calcStepV1, h]
        rw [totalsGet_addTotal_ne st.totals (fun he => hn he.symm) p]

lemma foldV1_nodup (pm : PriceMaps) : ∀ (students : List Purchase) (st : CalcState),
    (st.totals.map Prod.fst).Nodup →
    ((students.foldl (calcStepV1 pm) st).totals.map Prod.fst).Nodup := by
  intro students
  induction students with
  | nil => intro st h; simpa using h
  | cons stu rest ih =>
    intro st h
    rw [List.foldl_cons]
    refine ih _ ?_
    cases hm : matchedPrice pm (pyStrip stu.bookTitle) <;> simp [calcStepV1, hm]
    · exact h
    · exact nodup_keys_addTotal h

/-- C2.  If at least one purchase resolves at no tier, the reporter's
calculation fails with a single aggregated error listing every unmatched
purchase's student name and (stripped) book title, collected over the
entire batch, and returns no per-student totals.  The Calculator violates
the claimed policy: at the failing batch below — one genuinely unmatched
purchase plus a purchase titled ")(" — its `str_format_2` loops forever,
so the run produces no outcome at any fuel and the aggregated error is
never raised. -/
theorem claimC2 (books : List (List Char × ℚ)) (students : List Purchase)
    (h : ∃ stu ∈ students,
      matchedPrice (buildPriceMaps books) (pyStrip stu.bookTitle) = none) :
    calculate_student_payments_v1 books students
      = .error (students.filterMap (fun stu =>
          match matchedPrice (buildPriceMaps books) (pyStrip stu.bookTitle) with
          | none => some (stu.studentName, pyStrip stu.bookTitle)
          | some _ => none))
    ∧ (∀ pays, calculate_student_payments_v1 books students ≠ .ok pays)
    ∧ (∀ fuel, calculate_student_payments_v2p fuel [("b".toList, 1)]
        [⟨"s".toList, "zz".toList⟩, ⟨"t".toList, ")(".toList⟩] = none) := by
  obtain ⟨stu0, hstu0, hnone0⟩ := h
  have hpair : ∀ {stu : Purchase},
      matchedPrice (buildPriceMaps books) (pyStrip stu.bookTitle) = none →
      stu ∈ students →
      (stu.studentName, pyStrip stu.bookTitle) ∈ students.filterMap (fun stu =>
        match matchedPrice (buildPriceMaps books) (pyStrip stu.bookTitle) with
        | none => some (stu.studentName, pyStrip stu.bookTitle)
        | some _ => none) := by
    intro stu hn hm
    exact List.mem_filterMap.mpr ⟨stu, hm, by rw [hn]⟩
  have hne : students.filterMap (fun stu =>
      match matchedPrice (buildPriceMaps books) (pyStrip stu.bookTitle) with
      | none => some (stu.studentName, pyStrip stu.bookTitle)
      | some _ => none) ≠ [] := by
    intro he
    rw [he] at hpair
    exact (List.not_mem_nil _) (hpair hnone0 hstu0)
  have hv1 : calculate_student_payments_v1 books students
      = .error (students.filterMap (fun stu =>
          match matchedPrice (buildPriceMaps books) (pyStrip stu.bookTitle) with
          | none => some (stu.studentName, pyStrip stu.bookTitle)
          | some _ => none)) := by
    rw [calculate_student_payments_v1]
    rw [foldV1_unmatched (buildPriceMaps books) students ⟨[], []⟩]
    simp only [List.nil_append]
    rw [if_neg (by simpa [List.isEmpty_iff] using hne)]
  exact ⟨hv1, fun pays hc => by rw [hv1] at hc; exact Except.noConfusion hc,
    v2p_hangs_example⟩

/-- Witness for C2: a batch with one unmatched purchase makes the
reporter's calculation fail with the aggregated error listing that
student and title. -/
theorem claimC2_witness :
    (∃ stu ∈ [(⟨"s".toList, "zz".toList⟩ : Purchase)],
        matchedPrice (buildPriceMaps [("b".toList, 1)]) (pyStrip stu.bookTitle) = none)
    ∧ calculate_student_payments_v1 [("b".toList, 1)]
        [⟨"s".toList, "zz".toList⟩]
        = .error [("s".toList, "zz".toList)] := by
  have hx : ∃ stu ∈ [(⟨"s".toList, "zz".toList⟩ : Purchase)],
      matchedPrice (buildPriceMaps [("b".toList, 1)]) (pyStrip stu.bookTitle) = none :=
    ⟨⟨"s".toList, "zz".toList⟩, by simp, by with_unfolding_all rfl⟩
  exact ⟨hx, ((claimC2 [("b".toList, 1)] [⟨"s".toList, "zz".toList⟩] hx).1).trans
    (by with_unfolding_all rfl)⟩

/-- C8.  On a successful run, each student's reported fee is the sum of
that student's resolved purchase prices rounded once, per student, to 2
digits, and the displayed grand total is the sum of the per-student
rounded fees. -/
theorem claimC8 (books : List (List Char × ℚ)) (students : List Purchase)
    (pays : List (List Char × ℚ))
    (h : calculate_student_payments_v1 books students = .ok pays) :
    (∀ n f, (n, f) ∈ pays →
        f = round2 (((students.filter (fun stu => stu.studentName = n)).filterMap
            (fun stu => matchedPrice (buildPriceMaps books) (pyStrip stu.bookTitle))).sum))
    ∧ grandTotal pays = (pays.map (fun e => e.2)).sum := by
  refine ⟨?_, rfl⟩
  intro n f hmem
  rw [calculate_student_payments_v1] at h
  by_cases hemp : (((students.foldl (calcStepV1 (buildPriceMaps books))
      ⟨[], []⟩)).unmatched).isEmpty
  · rw [if_pos hemp] at h
    cases h
    obtain ⟨e, he, heq⟩ := List.mem_map.mp hmem
    injection heq with hn hf
    have hnd : (((students.foldl (calcStepV1 (buildPriceMaps books))
        ⟨[], []⟩)).totals.map Prod.fst).Nodup :=
      foldV1_nodup (buildPriceMaps books) students ⟨[], []⟩ (by simp)
    have hget := totalsGet_eq_of_mem hnd
      (show (n, e.2) ∈ _ from by rw [← hn]; exact he)
    have hsum := foldV1_totalsGet (buildPriceMaps books) n students ⟨[], []⟩
    rw [hget] at hsum
    have hz : totalsGet (⟨[], []⟩ : CalcState).totals n = 0 := rfl
    rw [hz, zero_add] at hsum
    rw [← hf, hsum]
  · rw [if_neg hemp] at h
    exact Except.noConfusion h

/-- Witness for C8: two 19.995 purchases by one student total 39.99 (the
rounding is applied once to the per-student sum), while rounding each
purchase first would give 40. -/
theorem claimC8_witness :
    calculate_student_payments_v1 [("a".toList, 19995/1000)]
        [⟨"s".toList, "a".toList⟩, ⟨"s".toList, "a".toList⟩]
      = .ok [("s".toList, 3999/100)]
    ∧ (∀ n f, (n, f) ∈ [("s".toList, (3999/100 : ℚ))] →
        f = round2 ((([(⟨"s".toList, "a".toList⟩ : Purchase),
            ⟨"s".toList, "a".toList⟩].filter (fun stu => stu.studentName = n)).filterMap
            (fun stu => matchedPrice (buildPriceMaps [("a".toList, 19995/1000)])
              (pyStrip stu.bookTitle))).sum))
    ∧ round2 (19995/1000) + round2 (19995/1000) = 40 := by
  have h : calculate_student_payments_v1 [("a".toList, 19995/1000)]
      [⟨"s".toList, "a".toList⟩, ⟨"s".toList, "a".toList⟩]
      = .ok [("s".toList, 3999/100)] := by with_unfolding_all rfl
  exact ⟨h, (claimC8 _ _ _ h).1, by with_unfolding_all rfl⟩

lemma bpFold_eq : ∀ (bs : List (List Char × ℚ)) (pm : PriceMaps),
    bs.foldl bpStep pm
      = ⟨pm.raw ++ bs.map (fun b => (pyStrip b.1, b.2)),
         pm.fmt1 ++ bs.map (fun b => (str_format_1 (pyStrip b.1), b.2)),
         pm.fmt2 ++ bs.map (fun b => (str_format_2 (pyStrip b.1), b.2))⟩ := by
  intro bs
  induction bs with
  | nil => intro pm; simp
  | cons b rest ih =>
    intro pm
    rw [List.foldl_cons, ih]
    simp [bpStep, mapInsert]

lemma mapGet_bookMap {books : List (List Char × ℚ)} {f : List Char × ℚ → List Char}
    {k : List Char} {v : ℚ}
    (h : mapGet (books.map (fun b => (f b, b.2))) k = some v) :
    ∃ b ∈ books, v = b.2 := by
  obtain ⟨b, hb, he⟩ := List.mem_map.mp (mapGet_mem h)
  exact ⟨b, hb, (congrArg Prod.snd he).symm⟩

lemma buildPriceMaps_values {books : List (List Char × ℚ)}
    (h : ∀ b ∈ books, b.2 ≠ 0) :
    (∀ k v, mapGet (buildPriceMaps books).raw k = some v → v ≠ 0)
    ∧ (∀ k v, mapGet (buildPriceMaps books).fmt1 k = some v → v ≠ 0)
    ∧ (∀ k v, mapGet (buildPriceMaps books).fmt2 k = some v → v ≠ 0) := by
  rw [buildPriceMaps, bpFold_eq]
  refine ⟨fun k v hv => ?_, fun k v hv => ?_, fun k v hv => ?_⟩ <;>
  · obtain ⟨b, hb, he⟩ := mapGet_bookMap (by simpa using hv)
    exact he ▸ h b hb

lemma pyOr_chain_eq (pm : PriceMaps)
    (hraw : ∀ k v, mapGet pm.raw k = some v → v ≠ 0)
    (hf1 : ∀ k v, mapGet pm.fmt1 k = some v → v ≠ 0)
    (bname : List Char) :
    pyOr (pyOr (mapGet pm.raw bname) (mapGet pm.fmt1 (str_format_1 bname)))
        (mapGet pm.fmt2 (str_format_2 bname))
      = matchedPrice pm bname := by
  cases h1 : mapGet pm.raw bname with
  | some v =>
    have hv := hraw _ _ h1
    simp [pyOr, pyTruthy, matchedPrice, mapMem, h1, bne_iff_ne, hv]
  | none =>
    cases h2 : mapGet pm.fmt1 (str_format_1 bname) with
    | some v =>
      have hv := hf1 _ _ h2
      simp [pyOr, pyTruthy, matchedPrice, mapMem, h1, h2, bne_iff_ne, hv]
    | none =>
      cases h3 : mapGet pm.fmt2 (str_format_2 bname) <;>
        simp [pyOr, pyTruthy, matchedPrice, mapMem, h1, h2, h3]

lemma foldV1V2_equiv (pm : PriceMaps)
    (hchain : ∀ bname,
      pyOr (pyOr (mapGet pm.raw bname) (mapGet pm.fmt1 (str_format_1 bname)))
          (mapGet pm.fmt2 (str_format_2 bname))
        = matchedPrice pm bname) :
    ∀ (students : List Purchase) (st1 : CalcState) (st2 : CalcStateF),
    st1.totals = st2.totals → st1.unmatched = st2.unmatched →
    (students.foldl (calcStepV1 pm) st1).totals
        = (students.foldl (calcStepV2 pm) st2).totals
      ∧ (students.foldl (calcStepV1 pm) st1).unmatched
        = (students.foldl (calcStepV2 pm) st2).unmatched := by
  intro students
  induction students with
  | nil => intro st1 st2 ht hu; exact ⟨ht, hu⟩
  | cons stu rest ih =>
    intro st1 st2 ht hu
    rw [List.foldl_cons, List.foldl_cons]
    refine ih _ _ ?_ ?_ <;>
    · simp only [calcStepV1, calcStepV2, hchain (pyStrip stu.bookTitle)]
      cases hm : matchedPrice pm (pyStrip stu.bookTitle) <;> simp [hm, ht, hu]

/-- Equality of the reporter's calculation and the totalized Calculator
model when no book price is 0: with all map values truthy, the or-chain
coincides with the membership chain, so both loops compute the same
totals and unmatched collections. -/
lemma v1_v2_totalized_agree (books : List (List Char × ℚ)) (students : List Purchase)
    (h : ∀ b ∈ books, b.2 ≠ 0) :
    Except.map Prod.fst (calculate_student_payments_v2 books students)
      = calculate_student_payments_v1 books students := by
  obtain ⟨hraw, hf1, _⟩ := buildPriceMaps_values h
  have hchain := pyOr_chain_eq (buildPriceMaps books) hraw hf1
  obtain ⟨ht, hu⟩ := foldV1V2_equiv (buildPriceMaps books) hchain students
    ⟨[], []⟩ ⟨[], [], false⟩ rfl rfl
  rw [calculate_student_payments_v1, calculate_student_payments_v2]
  rw [← ht, ← hu]
  by_cases he : ((students.foldl (calcStepV1 (buildPriceMaps books))
      ⟨[], []⟩)).unmatched.isEmpty
  · rw [if_pos he, if_pos he]
    rfl
  · rw [if_neg he, if_neg he]
    rfl

/-- Counterexample for C9 as stated: with a 0-priced book whose Tier-1
key collides with another book, both implementations succeed but report
different fees for the same student. -/
theorem claimC9_cex :
    calculate_student_payments_v1 [("x y".toList, 0), ("xy".toList, 3)]
        [⟨"t".toList, "x y".toList⟩]
      = .ok [("t".toList, 0)]
    ∧ calculate_student_payments_v2 [("x y".toList, 0), ("xy".toList, 3)]
        [⟨"t".toList, "x y".toList⟩]
      = .ok ([("t".toList, 3)], false)
    ∧ Except.map Prod.fst
        (calculate_student_payments_v2 [("x y".toList, 0), ("xy".toList, 3)]
          [⟨"t".toList, "x y".toList⟩])
      ≠ calculate_student_payments_v1 [("x y".toList, 0), ("xy".toList, 3)]
          [⟨"t".toList, "x y".toList⟩] := by
  have h1 : calculate_student_payments_v1 [("x y".toList, 0), ("xy".toList, 3)]
      [⟨"t".toList, "x y".toList⟩] = .ok [("t".toList, 0)] := by
    with_unfolding_all rfl
  have h2 : calculate_student_payments_v2 [("x y".toList, 0), ("xy".toList, 3)]
      [⟨"t".toList, "x y".toList⟩] = .ok ([("t".toList, 3)], false) := by
    with_unfolding_all rfl
  refine ⟨h1, h2, ?_⟩
  rw [h1, h2]
  intro hc
  simp only [Except.map, Except.ok.injEq] at hc
  have hh := congrArg (fun l => (l.headD ("".toList, 37)).2) hc
  simp at hh

/-- C9 (amended).  The two implementations of `calculate_student_payments`
return the same per-student totals for every book list and student-record
list on which both actually succeed — the Calculator's success stated
through its faithful partial model, so batches on which its normalizer
diverges are exactly the ones excluded by "both succeed" — provided no
book's price is 0. -/
theorem claimC9 (fuel : Nat) (books : List (List Char × ℚ))
    (students : List Purchase) (pays : List (List Char × ℚ))
    (res : List (List Char × ℚ) × Bool)
    (hnz : ∀ b ∈ books, b.2 ≠ 0)
    (h2 : calculate_student_payments_v2p fuel books students = some (.ok res))
    (h1 : calculate_student_payments_v1 books students = .ok pays) :
    res.1 = pays := by
  have hv2 : (.ok res : Except (List (List Char × List Char)) _)
      = calculate_student_payments_v2 books students := v2p_some h2
  have hagree := v1_v2_totalized_agree books students hnz
  rw [← hv2, h1] at hagree
  simp only [Except.map, Except.ok.injEq] at hagree
  exact hagree

/-- Witness for C9: on an all-nonzero-price input both implementations
finish and return the same totals. -/
theorem claimC9_witness :
    (∀ b ∈ [("b".toList, (2 : ℚ))], b.2 ≠ 0)
    ∧ calculate_student_payments_v2p 1 [("b".toList, 2)] [⟨"s".toList, "b".toList⟩]
      = some (.ok ([("s".toList, 2)], false))
    ∧ calculate_student_payments_v1 [("b".toList, 2)] [⟨"s".toList, "b".toList⟩]
      = .ok [("s".toList, 2)]
    ∧ ([("s".toList, (2 : ℚ))], false).1 = [("s".toList, (2 : ℚ))] := by
  have hnz : ∀ b ∈ [("b".toList, (2 : ℚ))], b.2 ≠ 0 := by
    intro b hb
    rcases List.mem_singleton.mp hb with rfl
    norm_num
  have h2 : calculate_student_payments_v2p 1 [("b".toList, 2)]
      [⟨"s".toList, "b".toList⟩] = some (.ok ([("s".toList, 2)], false)) := by
    with_unfolding_all rfl
  have h1 : calculate_student_payments_v1 [("b".toList, 2)]
      [⟨"s".toList, "b".toList⟩] = .ok [("s".toList, 2)] := by
    with_unfolding_all rfl
  exact ⟨hnz, h2, h1, claimC9 1 _ _ _ _ hnz h2 h1⟩

/-- C1.  Evaluation at the failing input: the book list holds "a b" at
price 0 (and "ab." at 7, whose Tier-2 key collides), and the purchase's
raw trimmed title "a b" is a key of the raw map with price 0 — yet the
Calculator's or-chain treats the 0 as absent, falls through to Tier 2,
charges 7 and marks the batch ambiguous.  (The reporter's
membership-checked chain returns the raw price 0 unambiguously.) -/
theorem claimC1 :
    mapMem (buildPriceMaps [("a b".toList, 0), ("ab.".toList, 7)]).raw
        (pyStrip "a b".toList) = true
    ∧ mapGet (buildPriceMaps [("a b".toList, 0), ("ab.".toList, 7)]).raw
        (pyStrip "a b".toList) = some 0
    ∧ calculate_student_payments_v2 [("a b".toList, 0), ("ab.".toList, 7)]
        [⟨"s".toList, "a b".toList⟩]
      = .ok ([("s".toList, 7)], true)
    ∧ calculate_student_payments_v1 [("a b".toList, 0), ("ab.".toList, 7)]
        [⟨"s".toList, "a b".toList⟩]
      = .ok [("s".toList, 0)] :=
  ⟨by with_unfolding_all rfl, by with_unfolding_all rfl,
   by with_unfolding_all rfl, by with_unfolding_all rfl⟩

/-- C3.  Evaluation at the failing input: for the purchase "a b" the first
lookup that succeeds is the raw one (price 0), but the Calculator's
or-chain adds the Tier-1 price 5 of the colliding book "ab" instead; the
reporter's membership-checked chain adds the raw price 0 as the claim
states. -/
theorem claimC3 :
    mapMem (buildPriceMaps [("a b".toList, 0), ("ab".toList, 5)]).raw
        (pyStrip "a b".toList) = true
    ∧ mapGet (buildPriceMaps [("a b".toList, 0), ("ab".toList, 5)]).raw
        (pyStrip "a b".toList) = some 0
    ∧ calculate_student_payments_v2 [("a b".toList, 0), ("ab".toList, 5)]
        [⟨"s".toList, "a b".toList⟩]
      = .ok ([("s".toList, 5)], false)
    ∧ calculate_student_payments_v1 [("a b".toList, 0), ("ab".toList, 5)]
        [⟨"s".toList, "a b".toList⟩]
      = .ok [("s".toList, 0)] :=
  ⟨by with_unfolding_all rfl, by with_unfolding_all rfl,
   by with_unfolding_all rfl, by with_unfolding_all rfl⟩

/-- C4.  Evaluation at the failing input: the purchase "ab" resolves at
Tier 2 only (the raw and Tier-1 lookups fail, the Tier-2 lookup succeeds
with price 0), so per the spec the batch ambiguous flag must be true —
but the Calculator's truthy check sees the 0 price as falsy and leaves
the flag false. -/
theorem claimC4 :
    mapMem (buildPriceMaps [("ab.".toList, 0)]).fmt2
        (str_format_2 (pyStrip "ab".toList)) = true
    ∧ mapMem (buildPriceMaps [("ab.".toList, 0)]).raw
        (pyStrip "ab".toList) = false
    ∧ mapMem (buildPriceMaps [("ab.".toList, 0)]).fmt1
        (str_format_1 (pyStrip "ab".toList)) = false
    ∧ calculate_student_payments_v2 [("ab.".toList, 0)]
        [⟨"s".toList, "ab".toList⟩]
      = .ok ([("s".toList, 0)], false) :=
  ⟨by with_unfolding_all rfl, by with_unfolding_all rfl,
   by with_unfolding_all rfl, by with_unfolding_all rfl⟩

/-! ## Lemmas about the extractor -/

lemma readBookRows_contiguous :
    ∀ (N : Nat) (g : Grid) (si ti pi start : Nat) (e : Int) (fuel : Nat),
    (∀ i, i < N → start + i < g.length) →
    (∀ i, i < N → ∃ sc, gridCell g (start + i) si = some sc ∧ cellIsNa sc = false
        ∧ cellToInt sc = some (e + i)) →
    (∀ i, i < N → ∃ tc, gridCell g (start + i) ti = some tc) →
    (∀ i, i < N → ∃ pc pq, gridCell g (start + i) pi = some pc
        ∧ cellToPrice pc = some pq) →
    (start + N = g.length ∨ (start + N < g.length ∧
        ∃ sc, gridCell g (start + N) si = some sc ∧ cellIsNa sc = true)) →
    N + 1 ≤ fuel →
    ∃ recs, readBookRows g si ti pi fuel start e = .ok recs
      ∧ recs.map BookRec.serial = (List.range N).map (fun i : Nat => e + (i : Int)) := by
  intro N
  induction N with
  | zero =>
    intro g si ti pi start e fuel _ _ _ _ hterm hfuel
    obtain ⟨f, rfl⟩ : ∃ f, fuel = f + 1 := ⟨fuel - 1, by omega⟩
    refine ⟨[], ?_, by simp⟩
    rcases hterm with hlen | ⟨hlt, sc, hsc, hna⟩
    · rw [readBookRows, if_neg (by omega)]
    · simp only [Nat.add_zero] at hlt hsc
      rw [readBookRows, if_pos hlt, hsc]
      simp [hna]
  | succ N ih =>
    intro g si ti pi start e fuel h4 h1 h2 h3 hterm hfuel
    obtain ⟨f, rfl⟩ : ∃ f, fuel = f + 1 := ⟨fuel - 1, by omega⟩
    have hs0 : start < g.length := by have := h4 0 (by omega); simpa using this
    obtain ⟨sc, hsc, hna, hint⟩ := h1 0 (by omega)
    obtain ⟨tc, htc⟩ := h2 0 (by omega)
    obtain ⟨pc, pq, hpc, hpq⟩ := h3 0 (by omega)
    simp only [Nat.add_zero] at hsc htc hpc
    have hint' : cellToInt sc = some e := by simpa using hint
    obtain ⟨recs, hrecs, hmap⟩ := ih g si ti pi (start + 1) (e + 1) f
      (fun i hi => by
        have := h4 (i + 1) (by omega)
        rw [show start + 1 + i = start + (i + 1) from by omega]
        exact this)
      (fun i hi => by
        obtain ⟨sc', ha, hb, hcv⟩ := h1 (i + 1) (by omega)
        refine ⟨sc', ?_, hb, ?_⟩
        · rw [show start + 1 + i = start + (i + 1) from by omega]
          exact ha
        · rw [hcv]
          congr 1
          push_cast
          ring)
      (fun i hi => by
        obtain ⟨tc', ha⟩ := h2 (i + 1) (by omega)
        refine ⟨tc', ?_⟩
        rw [show start + 1 + i = start + (i + 1) from by omega]
        exact ha)
      (fun i hi => by
        obtain ⟨pc', pq', ha, hb⟩ := h3 (i + 1) (by omega)
        refine ⟨pc', pq', ?_, hb⟩
        rw [show start + 1 + i = start + (i + 1) from by omega]
        exact ha)
      (by
        rw [show start + 1 + N = start + (N + 1) from by omega]
        exact hterm)
      (by omega)
    refine ⟨⟨e, tc, pq⟩ :: recs, ?_, ?_⟩
    · rw [readBookRows, if_pos hs0, hsc]
      simp [hna, hint', htc, hpc, hpq, hrecs]
    · rw [List.map_cons, hmap, List.range_succ_eq_map, List.map_cons, List.map_map]
      refine congrArg₂ List.cons (by simp) ?_
      refine List.map_congr_left (fun i _ => ?_)
      simp only [Function.comp]
      push_cast
      ring

/-- C7.  The record-reading loop returns exactly N records, with serials
1..N in order, for every grid segment whose serial cells run contiguously
from 1 and end at the first empty serial cell or at the end of the grid; a
non-empty serial different from the running expected value stops the scan
with an error naming the expected and the found value; the first empty
serial cell terminates extraction without error; and `process_book_excel`
never returns an empty record list (zero records is an error). -/
theorem claimC7 :
    (∀ (N : Nat) (g : Grid) (si ti pi start : Nat) (fuel : Nat),
      (∀ i, i < N → start + i < g.length) →
      (∀ i, i < N → ∃ sc, gridCell g (start + i) si = some sc ∧ cellIsNa sc = false
          ∧ cellToInt sc = some (1 + i)) →
      (∀ i, i < N → ∃ tc, gridCell g (start + i) ti = some tc) →
      (∀ i, i < N → ∃ pc pq, gridCell g (start + i) pi = some pc
          ∧ cellToPrice pc = some pq) →
      (start + N = g.length ∨ (start + N < g.length ∧
          ∃ sc, gridCell g (start + N) si = some sc ∧ cellIsNa sc = true)) →
      N + 1 ≤ fuel →
      ∃ recs, readBookRows g si ti pi fuel start 1 = .ok recs
        ∧ recs.map BookRec.serial = (List.range N).map (fun i : Nat => 1 + (i : Int)))
    ∧ (∀ (g : Grid) (si ti pi fuel start : Nat) (e m : Int) (sc : Cell),
      start < g.length → gridCell g start si = some sc → cellIsNa sc = false →
      cellToInt sc = some m → m ≠ e →
      readBookRows g si ti pi (fuel + 1) start e
        = .error (.nonContiguousSerial e m))
    ∧ (∀ (g : Grid) (si ti pi fuel start : Nat) (e : Int) (sc : Cell),
      start < g.length → gridCell g start si = some sc → cellIsNa sc = true →
      readBookRows g si ti pi (fuel + 1) start e = .ok [])
    ∧ (∀ (g : Grid) (target : List Char) (l : List BookRec),
      process_book_excel g target = .ok l → l ≠ []) := by
  refine ⟨fun N g si ti pi start fuel h4 h1 h2 h3 hterm hfuel =>
      readBookRows_contiguous N g si ti pi start 1 fuel h4 h1 h2 h3 hterm hfuel,
    ?_, ?_, ?_⟩
  · intro g si ti pi fuel start e m sc hlt hsc hna hint hne
    rw [readBookRows, if_pos hlt, hsc]
    simp [hna, hint, hne]
  · intro g si ti pi fuel start e sc hlt hsc hna
    rw [readBookRows, if_pos hlt, hsc]
    simp [hna]
  · intro g target l h
    rw [process_book_excel] at h
    split at h
    · exact Except.noConfusion h
    · split at h
      · exact Except.noConfusion h
      · split at h
        · exact Except.noConfusion h
        · split at h
          · exact Except.noConfusion h
          · exact Except.noConfusion h
          · exact Except.noConfusion h
          · split at h
            · exact Except.noConfusion h
            · split at h
              · exact Except.noConfusion h
              · rename_i hemp
                cases h
                simpa [List.isEmpty_iff] using hemp

/-- Witness for C7: on a concrete grid with serials 1,2 followed by a
blank serial cell, the loop returns exactly the two records in serial
order. -/
theorem claimC7_witness :
    ∃ recs, readBookRows
        [[Cell.strv "电气241".toList],
         [Cell.strv serialTok, Cell.strv titleTok, Cell.strv priceTok],
         [Cell.num 1, Cell.strv "b1".toList, Cell.num 45],
         [Cell.num 2, Cell.strv "b2".toList, Cell.blank],
         [Cell.blank, Cell.blank, Cell.blank]] 0 1 2 5 2 1
      = .ok recs
      ∧ recs.map BookRec.serial = (List.range 2).map (fun i : Nat => 1 + (i : Int)) := by
  refine claimC7.1 2 _ 0 1 2 2 5
    (fun i hi => by
      rcases (by omega : i = 0 ∨ i = 1) with rfl | rfl <;> decide)
    (fun i hi => ?_) (fun i hi => ?_) (fun i hi => ?_) ?_ (by omega)
  · rcases (by omega : i = 0 ∨ i = 1) with rfl | rfl
    · exact ⟨Cell.num 1, by with_unfolding_all rfl, rfl, by with_unfolding_all rfl⟩
    · exact ⟨Cell.num 2, by with_unfolding_all rfl, rfl, by with_unfolding_all rfl⟩
  · rcases (by omega : i = 0 ∨ i = 1) with rfl | rfl
    · exact ⟨Cell.strv "b1".toList, by with_unfolding_all rfl⟩
    · exact ⟨Cell.strv "b2".toList, by with_unfolding_all rfl⟩
  · rcases (by omega : i = 0 ∨ i = 1) with rfl | rfl
    · exact ⟨Cell.num 45, 45, by with_unfolding_all rfl, rfl⟩
    · exact ⟨Cell.blank, 0, by with_unfolding_all rfl, rfl⟩
  · exact Or.inr ⟨by decide, Cell.blank, by with_unfolding_all rfl, rfl⟩

/-- C10.  When the anchor row (the first row whose column-0 cell contains
the target class) is the last row of the grid, the unguarded access to the
following row makes `process_book_excel` fail with an out-of-range error —
neither a normal return nor the header-not-found error. -/
theorem claimC10 (g : Grid) (target : List Char) (r : Nat)
    (hanchor : g.findIdx? (fun row => cellContainsTok (row.headD .blank) target)
      = some r)
    (hlast : r + 1 = g.length) :
    process_book_excel g target = .error .outOfRange
    ∧ (∀ l, process_book_excel g target ≠ .ok l)
    ∧ process_book_excel g target ≠ .error .headerNotFound := by
  have hnone : g[r + 1]? = none := List.getElem?_eq_none (by omega)
  have h : process_book_excel g target = .error .outOfRange := by
    rw [process_book_excel, hanchor]
    simp [hnone]
  refine ⟨h, fun l hc => ?_, fun hc => ?_⟩
  · rw [h] at hc
    exact Except.noConfusion hc
  · rw [h] at hc
    simp at hc

/-- Witness for C10: a one-row grid whose only row is the anchor. -/
theorem claimC10_witness :
    process_book_excel [[Cell.strv "电气241".toList]] "电气241".toList
      = .error .outOfRange :=
  (claimC10 [[Cell.strv "电气241".toList]] "电气241".toList 0
    (by with_unfolding_all rfl) rfl).1
